import Mathlib

/-!
Verification of the frequency-to-heat model of the llvm-heat-printer
repository: the heat palette and colour selection of the CFG and
call-graph printers, the percentage edge labels of the CFG printer,
the parallel-edge collapse of the call-graph model, the provenance flag
threading, and the per-function rendering loop.

Conventions of the shallow embedding:
* C++ `uint64_t`/`unsigned` arithmetic is represented on `Nat`; the
  `double` computations of the printers are represented by their exact
  rational value, with truncating casts as `Nat` floor division.
* Fallible or undefined computations return `Option`: `none` marks a
  computation whose C++ source has undefined behaviour (for example a
  cast of a NaN produced by a division by zero to an integer).
* Functions of `HeatUtils.cpp` (which is not part of the sources, only
  its header `HeatUtils.h` is) are modelled from the spec; each such
  definition carries a doc comment starting with `Modelled from the
  spec:`.
-/

namespace HeatPrinter

/-- The heat palette of the printers: `heatSize = 100`
(`HeatCFGPrinter.cpp` line 256, `HeatCallPrinter.cpp` line 316). -/
def heatSize : Nat := 100

/-- The 100-entry cool/warm palette `heatPalette` shared by
`HeatCFGPrinter.cpp` (line 257) and `HeatCallPrinter.cpp` (line 317),
indexed 0 (coldest) to 99 (warmest). -/
def heatPalette : List String :=
  ["#3d50c3", "#4055c8", "#4358cb", "#465ecf", "#4961d2", "#4c66d6",
   "#4f69d9", "#536edd", "#5572df", "#5977e3", "#5b7ae5", "#5f7fe8",
   "#6282ea", "#6687ed", "#6a8bef", "#6c8ff1", "#7093f3", "#7396f5",
   "#779af7", "#7a9df8", "#7ea1fa", "#81a4fb", "#85a8fc", "#88abfd",
   "#8caffe", "#8fb1fe", "#93b5fe", "#96b7ff", "#9abbff", "#9ebeff",
   "#a1c0ff", "#a5c3fe", "#a7c5fe", "#abc8fd", "#aec9fc", "#b2ccfb",
   "#b5cdfa", "#b9d0f9", "#bbd1f8", "#bfd3f6", "#c1d4f4", "#c5d6f2",
   "#c7d7f0", "#cbd8ee", "#cedaeb", "#d1dae9", "#d4dbe6", "#d6dce4",
   "#d9dce1", "#dbdcde", "#dedcdb", "#e0dbd8", "#e3d9d3", "#e5d8d1",
   "#e8d6cc", "#ead5c9", "#ecd3c5", "#eed0c0", "#efcebd", "#f1ccb8",
   "#f2cab5", "#f3c7b1", "#f4c5ad", "#f5c1a9", "#f6bfa6", "#f7bca1",
   "#f7b99e", "#f7b599", "#f7b396", "#f7af91", "#f7ac8e", "#f7a889",
   "#f6a385", "#f5a081", "#f59c7d", "#f4987a", "#f39475", "#f29072",
   "#f08b6e", "#ef886b", "#ed8366", "#ec7f63", "#e97a5f", "#e8765c",
   "#e57058", "#e36c55", "#e16751", "#de614d", "#dc5d4a", "#d85646",
   "#d65244", "#d24b40", "#d0473d", "#cc403a", "#ca3b37", "#c53334",
   "#c32e31", "#be242e", "#bb1b2c", "#b70d28"]

theorem heatPalette_length : heatPalette.length = 100 := by decide

/-- `colorId` of `DOTGraphTraits<HeatCFGInfo*>::getNodeAttributes`
(`HeatCFGPrinter.cpp` line 267):
`unsigned((double(freqVal)/Graph->getMaxFreq())*(heatSize-1))`,
i.e. the floor of the exact value `freqVal * 99 / maxFreq`. -/
def colorIdCFG (freqVal maxFreq : Nat) : Nat :=
  freqVal * (heatSize - 1) / maxFreq

/-- Fill colour of a CFG node (`HeatCFGPrinter.cpp` line 268):
`heatPalette[colorId]`. -/
def nodeColorCFG (freqVal maxFreq : Nat) : String :=
  heatPalette.getD (colorIdCFG freqVal maxFreq) ""

/-- Outline (edge) colour of a CFG node (`HeatCFGPrinter.cpp` line 269):
`(colorId<(heatSize/2)) ? heatPalette[0] : heatPalette[heatSize-1]`. -/
def edgeColorCFG (freqVal maxFreq : Nat) : String :=
  if colorIdCFG freqVal maxFreq < heatSize / 2 then heatPalette.getD 0 ""
  else heatPalette.getD (heatSize - 1) ""

/-- Node attribute string of the CFG printer (`HeatCFGPrinter.cpp`
line 271): outline colour with alpha `ff`, fill colour with alpha `80`. -/
def nodeAttributesCFG (freqVal maxFreq : Nat) : String :=
  "color=\"" ++ edgeColorCFG freqVal maxFreq ++ "ff\", style=filled, fillcolor=\""
    ++ nodeColorCFG freqVal maxFreq ++ "80\""

/-- Modelled from the spec: `getHeatColor(double percent)` of the missing
`HeatUtils.cpp` (declared in `HeatUtils.h` line 45), per §4.1: maps a
fraction in [0,1] onto the palette, index 0 being the designated cold
outline colour and index 99 the warm one.  The fraction is represented
as `num / den`. -/
def getHeatColorFrac (num den : Nat) : String :=
  heatPalette.getD (min (num * (heatSize - 1) / den) (heatSize - 1)) ""

/-- Modelled from the spec: `getHeatColor(uint64_t freq, uint64_t maxFreq)`
of the missing `HeatUtils.cpp` (declared in `HeatUtils.h` line 43), per
§4.1: if `maxFreq == 0` it returns palette index 0, otherwise the entry
at `floor((freq/maxFreq)*99)` clamped to `[0, 99]`. -/
def getHeatColor (freq maxFreq : Nat) : String :=
  if maxFreq = 0 then heatPalette.getD 0 ""
  else
    let idx := freq * (heatSize - 1) / maxFreq
    heatPalette.getD (if heatSize - 1 < idx then heatSize - 1 else idx) ""

/-- Outline (edge) colour of a call-graph node
(`HeatCallPrinter.cpp` lines 599-600):
`(freq<(Graph->getMaxFreq()/2)) ? getHeatColor(0) : getHeatColor(1)`,
where `maxFreq/2` is C++ integer (truncating) division. -/
def edgeColorCall (freq maxFreq : Nat) : String :=
  if freq < maxFreq / 2 then getHeatColorFrac 0 1 else getHeatColorFrac 1 1

/-- Node attribute string of the call-graph printer
(`HeatCallPrinter.cpp` lines 596-603). -/
def nodeAttributesCall (freq maxFreq : Nat) : String :=
  "color=\"" ++ edgeColorCall freq maxFreq ++ "ff\", style=filled, fillcolor=\""
    ++ getHeatColor freq maxFreq ++ "80\""

/-- C1 counterexample: in the call-graph heat model a node whose
frequency 5 is exactly half of the scope maximum 10 receives the
warmest outline colour (palette index 99), not the coldest (index 0)
as the claim requires for `freq ≤ max/2`. -/
theorem c1_counterexample :
    2 * 5 ≤ 10 ∧ edgeColorCall 5 10 = heatPalette.getD 99 "" ∧
      heatPalette.getD 99 "" ≠ heatPalette.getD 0 "" := by
  refine ⟨by omega, by decide, by decide⟩

/-- C1 (amended): the outline colour of a node is the coldest palette
entry exactly when the CFG model's colour index is below half the
palette, i.e. `99*freq < 50*max` (so the threshold ratio is `50/99`,
not `1/2`); in the call-graph model exactly when
`freq < floor(max/2)`, i.e. `2*freq + 1 < max` (strict, integer half);
otherwise it is the warmest entry. -/
theorem c1_outline_colors (f m : Nat) :
    (edgeColorCFG f (m + 1) =
      if 99 * f < 50 * (m + 1) then heatPalette.getD 0 ""
      else heatPalette.getD 99 "") ∧
    (edgeColorCall f m =
      if 2 * f + 1 < m then heatPalette.getD 0 ""
      else heatPalette.getD 99 "") := by
  constructor
  · unfold edgeColorCFG colorIdCFG heatSize
    norm_num
    split_ifs with h1 h2 h3
    · rfl
    · rw [Nat.div_lt_iff_lt_mul (by omega)] at h1
      omega
    · rw [Nat.div_lt_iff_lt_mul (by omega)] at h1
      omega
    · rfl
  · unfold edgeColorCall getHeatColorFrac heatSize
    norm_num
    split_ifs with h1 h2 h3
    · rfl
    · omega
    · omega
    · rfl

/-- C2: colour lookup never divides by zero: `getHeatColor v 0` and
`getHeatColor 0 m` both give palette index 0 and agree with each
other, and for a positive maximum `m+1` the returned entry is the one
at `floor((v/(m+1))*99)` clamped to `[0, 99]`. -/
theorem c2_getHeatColor (v m : Nat) :
    getHeatColor v 0 = heatPalette.getD 0 "" ∧
    getHeatColor 0 m = heatPalette.getD 0 "" ∧
    getHeatColor v 0 = getHeatColor 0 m ∧
    getHeatColor v (m + 1) = heatPalette.getD (min (v * 99 / (m + 1)) 99) "" := by
  have h0 : getHeatColor v 0 = heatPalette.getD 0 "" := rfl
  have h1 : getHeatColor 0 m = heatPalette.getD 0 "" := by
    unfold getHeatColor heatSize
    split_ifs with h
    · rfl
    · norm_num
  refine ⟨h0, h1, by rw [h0, h1], ?_⟩
  unfold getHeatColor heatSize
  rw [if_neg (Nat.succ_ne_zero m)]
  norm_num
  have hmin : (if 99 < v * 99 / (m + 1) then 99 else v * 99 / (m + 1))
      = min (v * 99 / (m + 1)) 99 := by
    rw [Nat.min_def]
    split_ifs <;> omega
  rw [hmin]

/-- `int(round((double(freq)/double(total))*10000))` of
`DOTGraphTraits<HeatCFGInfo*>::getEdgeAttributes`
(`HeatCFGPrinter.cpp` line 245) on the exact rational value: the
percentage in units of 0.01%, rounding halves away from zero
(for non-negative arguments `round x = floor (x + 1/2)`). -/
def percentVal (freq total : Nat) : Nat :=
  (2 * (freq * 10000) + total) / (2 * total)

/-- Default `std::stringstream` rendering of the double `n / 100.0`
(`HeatCFGPrinter.cpp` lines 245-247) for `n ≤ 10000`: at most six
significant digits, so the two-digit decimal fraction is printed
exactly, with trailing zeros (and a trailing point) removed. -/
def fmtDouble (n : Nat) : String :=
  let ip := n / 100
  let fp := n % 100
  if fp = 0 then toString ip
  else if fp % 10 = 0 then toString ip ++ "." ++ toString (fp / 10)
  else if fp < 10 then toString ip ++ ".0" ++ toString fp
  else toString ip ++ "." ++ toString fp

/-- Percentage-mode path of
`DOTGraphTraits<HeatCFGInfo*>::getEdgeAttributes`
(`HeatCFGPrinter.cpp` lines 203-251, with the default flags
`NoEdgeWeight = false`, `UseRawEdgeWeight = false`).
`succFreqs` lists `Graph->getFreq` of the source block's successors in
order and `opNo` is the successor index of the queried edge.
The source returns `""` when the terminator has exactly one successor
and when `OpNo` is out of range; it has no guard for `total == 0`: in
that case it computes `int(round(0.0/0.0 * 10000))`, a NaN-to-int
conversion with undefined behaviour, modelled here as `none`. -/
def getEdgeAttributesPct (succFreqs : List Nat) (opNo : Nat) : Option String :=
  if succFreqs.length = 1 then some ""
  else
    let total := succFreqs.sum
    if succFreqs.length ≤ opNo then some ""
    else if total = 0 then none
    else some ("label=\"" ++ fmtDouble (percentVal (succFreqs.getD opNo 0) total) ++ "%\"")

/-- C4 counterexample: with successor frequencies 75 and 25 the first
edge label is `label="75%"` (default stream formatting drops the
trailing zeros), not the claimed two-decimal rendering
`label="75.00%"`. -/
theorem c4_counterexample :
    getEdgeAttributesPct [75, 25] 0 = some "label=\"75%\"" ∧
      getEdgeAttributesPct [75, 25] 0 ≠ some "label=\"75.00%\"" := by
  refine ⟨by decide, by decide⟩

/-- C4 (amended): in percentage mode, for a source block with more than
one successor and positive successor-frequency total, the label of
edge `i` is the value `round((freq_i/total)*10000)/100` rendered with
the default C++ stream formatting (trailing zeros stripped); in
particular successor frequencies 75 and 25 yield labels `"75%"` and
`"25%"`. -/
theorem c4_percentage_labels (freqs : List Nat) (i : Nat)
    (h2 : 2 ≤ freqs.length) (hi : i < freqs.length) (ht : 0 < freqs.sum) :
    getEdgeAttributesPct freqs i =
      some ("label=\"" ++ fmtDouble (percentVal (freqs.getD i 0) freqs.sum) ++ "%\"") ∧
    getEdgeAttributesPct [75, 25] 0 = some "label=\"75%\"" ∧
    getEdgeAttributesPct [75, 25] 1 = some "label=\"25%\"" := by
  refine ⟨?_, by decide, by decide⟩
  unfold getEdgeAttributesPct
  rw [if_neg (by omega), if_neg (by omega), if_neg (by omega)]

theorem c4_percentage_labels_witness :
    0 < List.sum [75, 25] ∧
      getEdgeAttributesPct [75, 25] 0 = some "label=\"75%\"" := by
  refine ⟨by decide, (c4_percentage_labels [75, 25] 0 (by decide) (by decide) (by decide)).2.1⟩

/-- C5: evaluation of the percentage-mode edge-attribute code at the
decisive inputs.  A source block with two successors of frequency 0
(total 0) does not omit the label: the code divides by zero and casts
the resulting NaN to `int`, which is undefined behaviour (`none`).  A
successor of frequency 0 with positive total gets the label
`label="0%"`, and a single-successor block gets the empty attribute
string. -/
theorem c5_total_zero_eval :
    getEdgeAttributesPct [0, 0] 0 = none ∧
    getEdgeAttributesPct [0, 100] 0 = some "label=\"0%\"" ∧
    getEdgeAttributesPct [100] 0 = some "" := by
  refine ⟨by decide, by decide, by decide⟩

theorem percentVal_sum_le (b : Nat) (l : List Nat) :
    2 * b * ((l.map (fun f => percentVal f b)).sum) ≤ 2 * 10000 * l.sum + l.length * b := by
  induction l with
  | nil => simp
  | cons f t ih =>
    simp only [List.map_cons, List.sum_cons, List.length_cons]
    have h1 : percentVal f b * (2 * b) ≤ 2 * (f * 10000) + b := Nat.div_mul_le_self _ _
    nlinarith [ih, h1]

theorem le_percentVal_sum (b : Nat) (l : List Nat) (hb : 0 < b) :
    2 * 10000 * l.sum + l.length * b
      ≤ 2 * b * ((l.map (fun f => percentVal f b)).sum) + l.length * (2 * b) := by
  induction l with
  | nil => simp
  | cons f t ih =>
    simp only [List.map_cons, List.sum_cons, List.length_cons]
    have hmod := Nat.div_add_mod (2 * (f * 10000) + b) (2 * b)
    have hlt : (2 * (f * 10000) + b) % (2 * b) < 2 * b := Nat.mod_lt _ (by omega)
    have h1 : 2 * (f * 10000) + b ≤ percentVal f b * (2 * b) + 2 * b := by
      unfold percentVal
      linarith [hmod, hlt]
    nlinarith [ih, h1]

/-- C8: for a source block whose successor-frequency total is positive,
the percentage-mode label values (in units of 0.01%) over all
successors sum to 100.00% within a tolerance of 0.01 per edge:
the sum of the rounded per-mille-of-ten-thousand values differs from
10000 by at most the number of successors. -/
theorem c8_percentage_sum (freqs : List Nat) (ht : 0 < freqs.sum) :
    ((freqs.map (fun f => (percentVal f freqs.sum : Int))).sum - 10000).natAbs
      ≤ freqs.length := by
  have hcast : (freqs.map (fun f => (percentVal f freqs.sum : Int))).sum
      = (((freqs.map (fun f => percentVal f freqs.sum)).sum : Nat) : Int) := by
    rw [Nat.cast_list_sum, List.map_map]
    rfl
  set b := freqs.sum with hbdef
  set S := (freqs.map (fun f => percentVal f b)).sum with hSdef
  set k := freqs.length with hkdef
  have hA := percentVal_sum_le b freqs
  have hB := le_percentVal_sum b freqs ht
  rw [← hbdef, ← hSdef, ← hkdef] at hA hB
  have h2S : 2 * S ≤ 20000 + k := by
    by_contra hcon
    push_neg at hcon
    have h1 : b * (20000 + k) + b ≤ b * (2 * S) := by
      calc b * (20000 + k) + b = b * (20000 + k + 1) := by ring
        _ ≤ b * (2 * S) := mul_le_mul_left' (by omega) b
    have h2 : b * (2 * S) ≤ b * (20000 + k) := by nlinarith [hA]
    linarith [ht]
  have h20000 : 20000 ≤ 2 * S + k := by
    by_contra hcon
    push_neg at hcon
    have h1 : b * (2 * S + k) + b ≤ b * 20000 := by
      calc b * (2 * S + k) + b = b * (2 * S + k + 1) := by ring
        _ ≤ b * 20000 := mul_le_mul_left' (by omega) b
    have h2 : b * 20000 ≤ b * (2 * S + k) := by nlinarith [hB]
    linarith [ht]
  rw [hcast]
  omega

theorem c8_percentage_sum_witness :
    0 < List.sum [75, 25] ∧
      ((([75, 25] : List Nat).map
          (fun f => (percentVal f (List.sum [75, 25]) : Int))).sum - 10000).natAbs
        ≤ ([75, 25] : List Nat).length :=
  ⟨by decide, c8_percentage_sum [75, 25] (by decide)⟩

/-- The inner for-loop of `HeatCallGraphInfo::removeParallelEdges`
(`HeatCallPrinter.cpp` lines 483-494): scans a node's outgoing edge
targets (`CI->second->getFunction()`, `none` for nodes without a
function) in order, inserting unseen targets into `visited`; returns
the index of the first edge whose target was already seen, or `none`
when the scan completes without finding a parallel edge. -/
def findDupIdx (visited : List (Option Nat)) : List (Option Nat) → Nat → Option Nat
  | [], _ => none
  | x :: xs, i => if x ∈ visited then some i else findDupIdx (x :: visited) xs (i + 1)

/-- `CallGraphNode::removeCallEdge(iterator)` of the host LLVM call
graph (an out-of-scope collaborator): overwrites the edge at the
iterator with the node's last edge and pops the back, removing exactly
one edge. -/
def removeCallEdgeAt (l : List (Option Nat)) (i : Nat) : List (Option Nat) :=
  (l.set i (l.getLastD none)).dropLast

/-- One iteration of the while-loop body of `removeParallelEdges`
(`HeatCallPrinter.cpp` lines 482-495): `some` of the edge list after
removing the first parallel edge (`foundParallelEdge = true`), or
`none` when no duplicate target was found and the loop stops. -/
def removePass (l : List (Option Nat)) : Option (List (Option Nat)) :=
  match findDupIdx [] l 0 with
  | none => none
  | some i => some (removeCallEdgeAt l i)

/-- The `while (foundParallelEdge)` loop of `removeParallelEdges` with
an explicit iteration bound; `none` marks exhausted fuel (which never
happens with `l.length + 1` iterations, theorem
`c10_removeParallelEdges_terminates`). -/
def collapseFuel : Nat → List (Option Nat) → Option (List (Option Nat))
  | 0, _ => none
  | fuel + 1, l =>
    match removePass l with
    | none => some l
    | some l2 => collapseFuel fuel l2

/-- `HeatCallGraphInfo::removeParallelEdges`
(`HeatCallPrinter.cpp` lines 477-497) restricted to one node's
outgoing edge targets. -/
def removeParallelEdges (l : List (Option Nat)) : List (Option Nat) :=
  (collapseFuel (l.length + 1) l).getD l

/-- `removeParallelEdges` over the whole call graph: the outer loop
over `(*CG)` applies the per-node collapse to every node. -/
def removeParallelEdgesGraph (g : List (List (Option Nat))) : List (List (Option Nat)) :=
  g.map removeParallelEdges

theorem findDupIdx_none {vis l : List (Option Nat)} {i : Nat}
    (h : findDupIdx vis l i = none) : l.Nodup ∧ ∀ x ∈ l, x ∉ vis := by
  induction l generalizing vis i with
  | nil => simp
  | cons x xs ih =>
    by_cases hx : x ∈ vis
    · simp [findDupIdx, hx] at h
    · rw [findDupIdx, if_neg hx] at h
      rcases ih h with ⟨hnodup, hnotin⟩
      refine ⟨List.nodup_cons.mpr ⟨fun hmem => ?_, hnodup⟩, ?_⟩
      · exact (hnotin x hmem) (List.mem_cons_self x vis)
      · intro y hy
        rcases List.mem_cons.mp hy with rfl | hy2
        · exact hx
        · exact fun hyv => (hnotin y hy2) (List.mem_cons_of_mem x hyv)

theorem removePass_length {l l2 : List (Option Nat)}
    (h : removePass l = some l2) : l2.length + 1 = l.length := by
  unfold removePass at h
  cases hf : findDupIdx [] l 0 with
  | none => rw [hf] at h; simp at h
  | some i =>
    rw [hf] at h
    cases l with
    | nil => simp [findDupIdx] at hf
    | cons a as =>
      simp only [Option.some.injEq] at h
      subst h
      simp [removeCallEdgeAt, List.length_set, List.length_dropLast]

theorem collapseFuel_nodup : ∀ (fuel : Nat) (l r : List (Option Nat)),
    collapseFuel fuel l = some r → r.Nodup := by
  intro fuel
  induction fuel with
  | zero => intro l r h; simp [collapseFuel] at h
  | succ n ih =>
    intro l r h
    rw [collapseFuel] at h
    cases hp : removePass l with
    | none =>
      rw [hp] at h
      simp only [Option.some.injEq] at h
      subst h
      unfold removePass at hp
      cases hf : findDupIdx [] l 0 with
      | none => exact (findDupIdx_none hf).1
      | some i => rw [hf] at hp; simp at hp
    | some l2 =>
      rw [hp] at h
      exact ih l2 r h

theorem collapseFuel_isSome : ∀ (fuel : Nat) (l : List (Option Nat)),
    l.length < fuel → ∃ r, collapseFuel fuel l = some r := by
  intro fuel
  induction fuel with
  | zero => intro l h; omega
  | succ n ih =>
    intro l h
    cases hp : removePass l with
    | none => exact ⟨l, by rw [collapseFuel, hp]⟩
    | some l2 =>
      have hlen := removePass_length hp
      rcases ih l2 (by omega) with ⟨r, hr⟩
      exact ⟨r, by rw [collapseFuel, hp]; exact hr⟩

theorem collapseFuel_length_le : ∀ (fuel : Nat) (l r : List (Option Nat)),
    collapseFuel fuel l = some r → r.length ≤ l.length := by
  intro fuel
  induction fuel with
  | zero => intro l r h; simp [collapseFuel] at h
  | succ n ih =>
    intro l r h
    rw [collapseFuel] at h
    cases hp : removePass l with
    | none =>
      rw [hp] at h
      simp only [Option.some.injEq] at h
      subst h
      exact le_refl _
    | some l2 =>
      rw [hp] at h
      have := removePass_length hp
      have := ih l2 r h
      omega

theorem removeParallelEdges_nodup (l : List (Option Nat)) :
    (removeParallelEdges l).Nodup := by
  unfold removeParallelEdges
  rcases collapseFuel_isSome (l.length + 1) l (by omega) with ⟨r, hr⟩
  rw [hr]
  exact collapseFuel_nodup _ _ _ hr

/-- C6: after the call-graph heat model's parallel-edge collapse, every
node's outgoing edge targets are pairwise distinct: no two outgoing
edges of a node share the same target function. -/
theorem c6_no_parallel_edges (g : List (List (Option Nat))) (n : Nat) :
    ((removeParallelEdgesGraph g).getD n []).Nodup := by
  induction g generalizing n with
  | nil => simp [removeParallelEdgesGraph]
  | cons l g ih =>
    cases n with
    | zero =>
      simpa [removeParallelEdgesGraph] using removeParallelEdges_nodup l
    | succ m =>
      simpa [removeParallelEdgesGraph] using ih m

/-- C10: `removeParallelEdges` terminates on every finite edge list:
`l.length + 1` passes of the scan-and-remove loop always suffice
(each pass either finds no duplicate target, ending the loop, or
removes exactly one edge, so the edge count strictly decreases), and
the collapse never grows the edge list. -/
theorem c10_removeParallelEdges_terminates (l : List (Option Nat)) :
    collapseFuel (l.length + 1) l = some (removeParallelEdges l) ∧
    (removeParallelEdges l).length ≤ l.length ∧
    (removePass l).elim True (fun l2 => l2.length + 1 = l.length) := by
  rcases collapseFuel_isSome (l.length + 1) l (by omega) with ⟨r, hr⟩
  have hrp : removeParallelEdges l = r := by
    unfold removeParallelEdges
    rw [hr]
    rfl
  refine ⟨by rw [hrp, hr], ?_, ?_⟩
  · rw [hrp]
    exact collapseFuel_length_le _ _ _ hr
  · cases hp : removePass l with
    | none => trivial
    | some l2 => exact removePass_length hp

/-- A function of the module as the call-graph model sees it: whether
it is a declaration (bodiless) and whether it carries a
profiling-derived entry count. -/
structure ModuleFn where
  isDecl : Bool
  hasEntryCount : Bool
deriving DecidableEq

/-- Modelled from the spec: `hasProfiling(Module&)` of the missing
`HeatUtils.cpp` (declared in `HeatUtils.h` line 27), per §4.2: true iff
any function of the program carries profiling-derived entry-count
metadata. -/
def hasProfiling (funcs : List ModuleFn) : Bool :=
  funcs.any (fun f => f.hasEntryCount)

/-- A frequency query of the call-graph model, tagged with the
`useHeuristic` flag it was issued with. -/
inductive FreqQuery where
  | maxFreqQ (fnIdx : Nat) (useHeuristic : Bool)
  | numOfCallsQ (caller callee : Nat) (useHeuristic : Bool)
deriving DecidableEq

def FreqQuery.usesHeuristic : FreqQuery → Bool
  | .maxFreqQ _ u => u
  | .numOfCallsQ _ _ u => u

/-- Frequency queries issued by the `HeatCallGraphInfo` constructor
(`HeatCallPrinter.cpp` lines 442-467): `useHeuristic = !hasProfiling(*M)`
is computed once and passed to `llvm::getMaxFreq` for every defined
function; in `UseCallCounter` mode the entry count is read directly
and no frequency query is issued. -/
def constructorQueries (funcs : List ModuleFn) (useCallCounter : Bool) :
    List FreqQuery :=
  if useCallCounter then []
  else funcs.enum.filterMap (fun p =>
    if p.2.isDecl then none
    else some (FreqQuery.maxFreqQ p.1 (!hasProfiling funcs)))

/-- The frequency query issued by
`DOTGraphTraits<HeatCallGraphInfo*>::getEdgeAttributes`
(`HeatCallPrinter.cpp` lines 572-588): when edge-weight estimation is
enabled and the caller is a defined function with a non-null successor
function, it calls `getNumOfCalls(*F, *SuccFunction, Graph->LookupBFI)`
omitting the `useHeuristic` argument, so the declaration's default
value `useHeuristic = true` (`HeatUtils.h` lines 32-34) applies. -/
def edgeAttrQuery (estimateEdgeWeight : Bool) (caller : Option ModuleFn)
    (callerIdx : Nat) (calleeFn : Option Nat) : Option FreqQuery :=
  if !estimateEdgeWeight then none
  else
    match caller with
    | none => none
    | some F =>
      if F.isDecl then none
      else
        match calleeFn with
        | none => none
        | some c => some (FreqQuery.numOfCallsQ callerIdx c true)

/-- C3 counterexample: a module whose single defined function carries
profiling entry-count metadata has `hasProfiling = true`, yet the
estimated-weight edge query still runs with `useHeuristic = true` (the
header's default), so a frequency query of that program takes the
heuristic path even though profiling exists. -/
theorem c3_counterexample :
    hasProfiling [⟨false, true⟩] = true ∧
    edgeAttrQuery true (some ⟨false, true⟩) 0 (some 1)
      = some (FreqQuery.numOfCallsQ 0 1 true) ∧
    (FreqQuery.numOfCallsQ 0 1 true).usesHeuristic = true :=
  ⟨rfl, rfl, rfl⟩

/-- C3 (amended): the node-frequency queries issued during construction
all carry the uniform flag `useHeuristic = !hasProfiling(program)`; but
every estimated call-count query issued while rendering edge attributes
carries `useHeuristic = true` (the default of `HeatUtils.h`), so when
profiling exists and edge-weight estimation is enabled, measured and
estimated provenance mix within one program. -/
theorem c3_provenance_flags (funcs : List ModuleFn) (ucc est : Bool)
    (caller : Option ModuleFn) (ci : Nat) (ce : Option Nat) :
    (constructorQueries funcs ucc).all
      (fun q => q.usesHeuristic == !hasProfiling funcs) = true ∧
    ((edgeAttrQuery est caller ci ce).map FreqQuery.usesHeuristic).getD true
      = true := by
  constructor
  · unfold constructorQueries
    split_ifs with h
    · rfl
    · rw [List.all_eq_true]
      intro q hq
      rcases List.mem_filterMap.mp hq with ⟨p, hp, hpq⟩
      by_cases hd : p.2.isDecl
      · simp [hd] at hpq
      · simp only [hd, if_false, Option.some.injEq, Bool.false_eq_true] at hpq
        subst hpq
        simp [FreqQuery.usesHeuristic]
  · cases est with
    | false => rfl
    | true =>
      rcases caller with _ | F
      · rfl
      · by_cases hd : F.isDecl
        · simp [edgeAttrQuery, hd]
        · rcases ce with _ | c
          · simp [edgeAttrQuery, hd]
          · simp [edgeAttrQuery, hd, FreqQuery.usesHeuristic]

/-- A basic block of the caller as seen by the call-count estimate: its
frequency and the targets of the call sites it contains. -/
structure BlockM where
  freq : Nat
  callees : List Nat
deriving DecidableEq

/-- Modelled from the spec: `getNumOfCalls(caller, callee, LookupBFI,
useHeuristic)` of the missing `HeatUtils.cpp` (declared in
`HeatUtils.h` lines 32-34), per §4.2, §8 and §9: an estimate of how
many times the caller invokes the callee, obtained by summing the
enclosing block's frequency once per block of the caller containing at
least one call site targeting the callee (per containing block, not
per individual call instruction). -/
def getNumOfCalls (callerBlocks : List BlockM) (callee : Nat) : Nat :=
  (callerBlocks.filter (fun B => B.callees.contains callee)).foldl
    (fun acc B => acc + B.freq) 0

/-- Edge attribute of the call-graph printer
(`HeatCallPrinter.cpp` lines 572-588): in estimated-weight mode, for a
defined caller and a successor with a function, the estimated call
count rendered as a plain integer label. -/
def callEdgeAttributes (estimateEdgeWeight : Bool) (callerDecl : Bool)
    (callerBlocks : List BlockM) (callee : Option Nat) : String :=
  if !estimateEdgeWeight then ""
  else if callerDecl then ""
  else
    match callee with
    | none => ""
    | some c => "label=\"" ++ toString (getNumOfCalls callerBlocks c) ++ "\""

theorem foldl_add_map_freq (L : List BlockM) (a : Nat) :
    L.foldl (fun acc B => acc + B.freq) a = a + (L.map BlockM.freq).sum := by
  induction L generalizing a with
  | nil => simp
  | cons B t ih =>
    simp only [List.foldl_cons, List.map_cons, List.sum_cons, ih]
    omega

/-- C7: the estimated call count sums the enclosing block's frequency
over the caller's blocks that contain a call site targeting the
callee; a caller with three call sites to the same callee inside one
block of frequency 10 yields the estimate 10 and the collapsed edge
label `label="10"`, not `label="30"`. -/
theorem c7_call_count_estimate (blocks : List BlockM) (c : Nat) :
    getNumOfCalls blocks c
      = ((blocks.filter (fun B => B.callees.contains c)).map BlockM.freq).sum ∧
    getNumOfCalls [⟨10, [2, 2, 2]⟩] 2 = 10 ∧
    callEdgeAttributes true false [⟨10, [2, 2, 2]⟩] (some 2) = "label=\"10\"" ∧
    callEdgeAttributes true false [⟨10, [2, 2, 2]⟩] (some 2) ≠ "label=\"30\"" := by
  refine ⟨?_, by decide, by decide, by decide⟩
  unfold getNumOfCalls
  rw [foldl_add_map_freq]
  omega

/-- A function of the module as the per-function rendering loop sees
it. -/
structure FuncR where
  name : String
  isDecl : Bool

/-- The observable outcome of rendering one function: the graph was
written, or the open failed, was reported and the render skipped. -/
inductive RenderOutcome where
  | written (filename : String)
  | openFailed (filename : String)
deriving DecidableEq

/-- Output filename of one function's render
(`HeatCFGPrinter.cpp` line 311): `("heatcfg." + F.getName() + ".dot")`. -/
def dotFilename (f : FuncR) : String := "heatcfg." ++ f.name ++ ".dot"

/-- `writeHeatCFGToDotFile(Function&, ...)`
(`HeatCFGPrinter.cpp` lines 310-324): opens the output file; on an
error code it reports the failure and skips writing, otherwise it
writes the graph; on every path it returns normally. -/
def writeFunctionDot (canOpen : String → Bool) (f : FuncR) : RenderOutcome :=
  if canOpen (dotFilename f) then RenderOutcome.written (dotFilename f)
  else RenderOutcome.openFailed (dotFilename f)

/-- `writeHeatCFGToDotFile(Module&, ...)`
(`HeatCFGPrinter.cpp` lines 326-337): loops over every non-declaration
function of the module and renders each one unconditionally. -/
def writeModuleDot (canOpen : String → Bool) (funcs : List FuncR) :
    List RenderOutcome :=
  (funcs.filter (fun f => !f.isDecl)).map (writeFunctionDot canOpen)

/-- C9: one failed open never aborts the per-function loop: the
outcomes of a module split around any function into the outcomes
before it, its own outcome, and the outcomes after it, whatever
`canOpen` returns; a defined function whose destination cannot be
opened yields a reported-and-skipped outcome, and a later function is
still rendered. -/
theorem c9_failed_open_skips_single_render (canOpen : String → Bool)
    (fs1 fs2 : List FuncR) (f : FuncR) :
    writeModuleDot canOpen (fs1 ++ f :: fs2)
      = writeModuleDot canOpen fs1 ++ writeModuleDot canOpen [f]
          ++ writeModuleDot canOpen fs2 ∧
    writeModuleDot (fun _ => false) [⟨"f", false⟩]
      = [RenderOutcome.openFailed "heatcfg.f.dot"] ∧
    writeModuleDot (fun s => !(s == "heatcfg.a.dot"))
        [⟨"a", false⟩, ⟨"b", false⟩]
      = [RenderOutcome.openFailed "heatcfg.a.dot",
         RenderOutcome.written "heatcfg.b.dot"] := by
  refine ⟨?_, by decide, by decide⟩
  simp only [writeModuleDot, List.filter_append, List.map_append, List.filter_cons]
  by_cases hd : f.isDecl
  · simp [hd]
  · simp [hd]

end HeatPrinter
